import Mathlib

/-!
# Fivox block-tree data source: planner, address mapper, sampler

A shallow embedding of `fivox/livre/dataSource.cpp`.

Conventions of the embedding:

* `float` values are exact rationals (`ℚ`); `ceil` is `Int.ceil`, halving is
  exact division by two.
* `uint32_t` values are naturals below `2 ^ 32`; a product of two of them is
  reduced modulo `2 ^ 32`.
* A conversion or shift whose C++ behaviour is undefined (a float outside the
  target integer range, a shift of `1` that leaves the range of `int`) has no
  value: the function returns `none`.
* Grid positions of nodes are small, their conversion to `int32_t` keeps the
  value.
* The `while` loop of the constructor is run with a fuel counter; `none` means
  the fuel ran out before the loop condition became false.
* `vmml` vectors are three-component records with component-wise arithmetic,
  a vector by scalar operation applies the scalar to every component.
-/

namespace Fivox

/-- Three-component vector, the shape of `Vector3f`, `Vector3ui`, `Vector3i`. -/
structure Vec3 (α : Type) where
  x : α
  y : α
  z : α
deriving DecidableEq, Repr

namespace Vec3

/-- Apply a function to every component. -/
def map {α β : Type} (f : α → β) (v : Vec3 α) : Vec3 β :=
  ⟨f v.x, f v.y, f v.z⟩

/-- Combine two vectors component by component. -/
def zipWith {α β γ : Type} (f : α → β → γ) (v : Vec3 α) (w : Vec3 β) : Vec3 γ :=
  ⟨f v.x w.x, f v.y w.y, f v.z w.z⟩

/-- Largest component, `vector::find_max`. -/
def find_max (v : Vec3 ℚ) : ℚ :=
  max (max v.x v.y) v.z

/-- Index of the first largest component, `vector::find_max_index`. -/
def find_max_index (v : Vec3 ℕ) : Fin 3 :=
  if v.y ≤ v.x then (if v.z ≤ v.x then 0 else 2)
  else (if v.z ≤ v.y then 1 else 2)

/-- Component access by index, `vector::operator[]`. -/
def get {α : Type} (v : Vec3 α) (i : Fin 3) : α :=
  match i with
  | 0 => v.x
  | 1 => v.y
  | 2 => v.z

end Vec3

/-- Conversion of a (whole) float to `uint32_t`; undefined out of range. -/
def toUInt32 (c : ℤ) : Option ℕ :=
  if 0 ≤ c ∧ c < 2 ^ 32 then some c.toNat else none

/-- Wrap an integer into the range of `int32_t` (two-complement wrap-around). -/
def toInt32 (n : ℤ) : ℤ :=
  if n % 2 ^ 32 < 2 ^ 31 then n % 2 ^ 32 else n % 2 ^ 32 - 2 ^ 32

/-- The expression `1 << n` on `int`: defined when the count is not negative
and the result is representable in `int`. -/
def shiftLeftOne (n : ℤ) : Option ℕ :=
  if 0 ≤ n ∧ n < 31 then some (2 ^ n.toNat) else none

/-- The value `(bbox.getDimension() + functor->getKernelSize() * 2.0f) * resolution`. -/
def fullResolution (D : Vec3 ℚ) (K : ℚ) (R : ℚ) : Vec3 ℚ :=
  D.map (fun d => (d + K * 2) * R)

/-- The loop condition's left side:
`ceil( r.x ) * ceil( r.y ) * ceil( r.z )`. -/
def ceilProduct (r : Vec3 ℚ) : ℤ :=
  ⌈r.x⌉ * ⌈r.y⌉ * ⌈r.z⌉

/-- The halving loop of the constructor,
`while( ceilProduct > maxBlockByteSize ) { blockResolution /= 2; ++depth; }`,
run for at most `fuel` evaluations of the condition. -/
def halvingLoop (maxBlockByteSize : ℕ) : ℕ → Vec3 ℚ → ℕ → Option (Vec3 ℚ × ℕ)
  | 0, _, _ => none
  | fuel + 1, blockResolution, depth =>
    if ceilProduct blockResolution > (maxBlockByteSize : ℤ) then
      halvingLoop maxBlockByteSize fuel (blockResolution.map (· / 2)) (depth + 1)
    else
      some (blockResolution, depth)

/-- The vector `blockDim( std::ceil( r.x ), std::ceil( r.y ), std::ceil( r.z ))`. -/
def blockDimOf (r : Vec3 ℚ) : Option (Vec3 ℕ) :=
  match toUInt32 ⌈r.x⌉, toUInt32 ⌈r.y⌉, toUInt32 ⌈r.z⌉ with
  | some a, some b, some c => some ⟨a, b, c⟩
  | _, _, _ => none

/-- The product `blockDim * treeQuotient` on `Vector3ui`: every component is
multiplied in `uint32_t`. -/
def scaleUInt32 (v : Vec3 ℕ) (s : ℕ) : Vec3 ℕ :=
  v.map (fun c => (c * s) % 2 ^ 32)

/-- What the constructor computes before it fills the volume information. -/
structure TreeGeometry where
  depth : ℕ
  blockDim : Vec3 ℕ
  totalTreeSize : Vec3 ℕ
  borders : Vec3 ℚ
deriving DecidableEq, Repr

/-- The value `( totalTreeSize / resolution ) - bbox.getDimension()`. -/
def bordersOf (totalTreeSize : Vec3 ℕ) (R : ℚ) (D : Vec3 ℚ) : Vec3 ℚ :=
  Vec3.zipWith (fun (t : ℕ) (d : ℚ) => (t : ℚ) / R - d) totalTreeSize D

/-- The tree planner: lines 139 to 166 of the constructor `DataSource::DataSource`. -/
def plan (fuel : ℕ) (D : Vec3 ℚ) (K R : ℚ) (maxBlockByteSize : ℕ) :
    Option TreeGeometry :=
  match halvingLoop maxBlockByteSize fuel (fullResolution D K R) 0 with
  | none => none
  | some (blockResolution, depth) =>
    match shiftLeftOne (depth : ℤ), blockDimOf blockResolution with
    | some treeQuotient, some blockDim =>
      let totalTreeSize := scaleUInt32 blockDim treeQuotient
      some ⟨depth, blockDim, totalTreeSize, bordersOf totalTreeSize R D⟩
    | _, _ => none


/-! ## Address mapper and sampler geometry -/

/-- Axis-aligned box, `vmml::AABB`. -/
structure AABB (α : Type) where
  min : Vec3 α
  max : Vec3 α
deriving DecidableEq, Repr

/-- The vector `AABB::getDimension()`. -/
def AABB.getDimension (b : AABB ℚ) : Vec3 ℚ :=
  Vec3.zipWith (· - ·) b.max b.min

/-- The fields of `livre::NodeId` read here. -/
structure NodeId where
  level : ℕ
  position : Vec3 ℕ
  frame : ℕ
deriving DecidableEq, Repr

/-- The fields of `livre::VolumeInformation` read by the mapper and the sampler;
`depth` is `rootNode.getDepth()` and `bricksInRefLevel` is `rootNode.getBlockSize`. -/
structure VolumeInformation where
  voxels : Vec3 ℕ
  maximumBlockSize : Vec3 ℕ
  overlap : Vec3 ℕ
  worldSize : Vec3 ℚ
  depth : ℕ
  bricksInRefLevel : ℕ → Vec3 ℕ

/-- The node built by `internalNodeToLODNode`. -/
structure LODNode where
  nodeId : NodeId
  blockSize : Vec3 ℕ
  worldBox : AABB ℚ
deriving DecidableEq, Repr

/-- The box `localBlockPos( position, position + 1u )`. -/
def localBlockPos (position : Vec3 ℕ) : AABB ℤ :=
  ⟨position.map (fun (p : ℕ) => (p : ℤ)), position.map (fun (p : ℕ) => ((p + 1 : ℕ) : ℤ))⟩

/-- The divisor `bricksInRefLevel[ bricksInRefLevel.find_max_index() ]`. -/
def maxBricks (bricks : Vec3 ℕ) : ℕ :=
  bricks.get bricks.find_max_index

/-- The vector `Vector3f( corner ) / bricksInRefLevel[index]`. -/
def boxCoord (corner : Vec3 ℤ) (bricks : Vec3 ℕ) : Vec3 ℚ :=
  corner.map (fun (c : ℤ) => (c : ℚ) / (maxBricks bricks : ℚ))

/-- The corner `boxCoord * worldSize - worldSize * 0.5f`. -/
def toWorld (coord worldSize : Vec3 ℚ) : Vec3 ℚ :=
  Vec3.zipWith (fun c w => c * w - w * (1 / 2)) coord worldSize

/-- The function `DataSource::internalNodeToLODNode`. -/
def internalNodeToLODNode (info : VolumeInformation) (internalNode : NodeId) : LODNode :=
  let bricks := info.bricksInRefLevel internalNode.level
  let box := localBlockPos internalNode.position
  { nodeId := internalNode
    blockSize := Vec3.zipWith (fun m o => (m + 2 ^ 32 - (o * 2) % 2 ^ 32) % 2 ^ 32)
      info.maximumBlockSize info.overlap
    worldBox := ⟨toWorld (boxCoord box.min bricks) info.worldSize,
                 toWorld (boxCoord box.max bricks) info.worldSize⟩ }

/-- The vector `( bbox.getDimension() + _borders ) / info.voxels` of `sample`. -/
def baseSpacing (bbox : AABB ℚ) (borders : Vec3 ℚ) (voxels : Vec3 ℕ) : Vec3 ℚ :=
  Vec3.zipWith (fun s (v : ℕ) => s / (v : ℚ))
    (Vec3.zipWith (· + ·) bbox.getDimension borders) voxels

/-- The count `info.rootNode.getDepth() - 1 - node.getRefLevel()` stored in an
`int32_t`. -/
def levelFromBottom (depth refLevel : ℕ) : ℤ :=
  toInt32 ((depth : ℤ) - 1 - (refLevel : ℤ))

/-- The three spacing components set by `sample`. -/
def sampleSpacing (bbox : AABB ℚ) (borders : Vec3 ℚ) (info : VolumeInformation)
    (refLevel : ℕ) : Option (Vec3 ℚ) :=
  match shiftLeftOne (levelFromBottom info.depth refLevel) with
  | none => none
  | some spacingFactor =>
    let spacing0 := (baseSpacing bbox borders info.voxels).find_max * (spacingFactor : ℚ)
    some ⟨spacing0, spacing0, spacing0⟩

/-- The origin `( bbox.getMin() - _borders / 2.0f ) + node.getRelativePosition() *
Vector3f( bbox.getDimension() + _borders )` set by `sample`. -/
def sampleOrigin (bbox : AABB ℚ) (borders relativePosition : Vec3 ℚ) : Vec3 ℚ :=
  Vec3.zipWith (· + ·)
    (Vec3.zipWith (fun m b => m - b / 2) bbox.min borders)
    (Vec3.zipWith (· * ·) relativePosition
      (Vec3.zipWith (· + ·) bbox.getDimension borders))

/-! ## The host boundary -/

/-- What a C++ call can throw: a `std::exception` with its message, or anything else. -/
inductive Thrown where
  | stdException (what : String)
  | other
deriving DecidableEq, Repr

/-- The voxel buffer handed to the host, `livre::MemoryUnit`. -/
structure MemoryUnit where
  bytes : List ℕ
deriving DecidableEq, Repr

/-- What `getData` leaves behind: the returned pointer (`none` is the null
`MemoryUnitPtr`) and the lines written to the error log. -/
structure GetDataResult where
  memoryUnit : Option MemoryUnit
  log : List String
deriving DecidableEq, Repr

/-- The function `DataSource::getData`: the `try` block around `sample` with its two
handlers. The result is `Except.error` only if an exception leaves the function. -/
def getData (sample : LODNode → VolumeInformation → Except Thrown MemoryUnit)
    (info : VolumeInformation) (node : LODNode) : Except Thrown GetDataResult :=
  match sample node info with
  | Except.ok unit => Except.ok ⟨some unit, []⟩
  | Except.error (Thrown.stdException what) =>
    Except.ok ⟨none, ["sample failed: " ++ what]⟩
  | Except.error Thrown.other => Except.ok ⟨none, ["sample failed"]⟩

/-! ## Order of the shared-state operations of `sample` -/

/-- The operations of `sample` on state shared between render threads. -/
inductive Action where
  | load (frame : ℕ)
  | lockAcquire
  | configure
  | update
  | extract
  | lockRelease
deriving DecidableEq, Repr

/-- The shared-state operations of one call of `sample`, in program order:
`loader->load( frame )`, `ScopedWrite mutex( _lock )`, `SetRegions`/`SetSpacing`/
`SetOrigin`, `Modified`/`Update`, `allocAndSetData`, end of scope. -/
def sampleActions (frame : ℕ) : List Action :=
  [Action.load frame, Action.lockAcquire, Action.configure, Action.update,
   Action.extract, Action.lockRelease]

/-- For each operation of a sequential run, whether the lock is held when it
executes. -/
def heldDuring : Bool → List Action → List (Action × Bool)
  | _, [] => []
  | _, Action.lockAcquire :: rest => (Action.lockAcquire, false) :: heldDuring true rest
  | held, Action.lockRelease :: rest => (Action.lockRelease, held) :: heldDuring false rest
  | held, a :: rest => (a, held) :: heldDuring held rest

/-- State shared by the threads that call `sample` on one data source. -/
structure Shared where
  lockHolder : Option ℕ
  loadedFrame : Option ℕ
  outputFrame : Option ℕ
  extracted : List (ℕ × Option ℕ)
deriving DecidableEq, Repr

/-- One operation of thread `t`; `none` when the thread cannot take the step
(the lock is held by another thread). -/
def stepAction (t : ℕ) (s : Shared) : Action → Option Shared
  | Action.load f => some { s with loadedFrame := some f }
  | Action.lockAcquire =>
    if s.lockHolder = none then some { s with lockHolder := some t } else none
  | Action.configure => some s
  | Action.update => some { s with outputFrame := s.loadedFrame }
  | Action.extract => some { s with extracted := s.extracted ++ [(t, s.outputFrame)] }
  | Action.lockRelease =>
    if s.lockHolder = some t then some { s with lockHolder := none } else none

/-- Run two threads under a schedule (`false` steps the first thread, `true` the
second); each thread executes its remaining operations in program order. -/
def runSchedule : List Bool → List Action → List Action → Shared → Option Shared
  | [], [], [], s => some s
  | [], _, _, _ => none
  | false :: sched, a :: rest0, rest1, s =>
    match stepAction 0 s a with
    | some s1 => runSchedule sched rest0 rest1 s1
    | none => none
  | true :: sched, rest0, a :: rest1, s =>
    match stepAction 1 s a with
    | some s1 => runSchedule sched rest0 rest1 s1
    | none => none
  | _ :: _, _, _, _ => none

/-- Initial shared state: lock free, nothing loaded, nothing extracted. -/
def Shared.init : Shared := ⟨none, none, none, []⟩

/-- A property that holds on every axis. -/
def Vec3.All {α : Type} (P : α → Prop) (v : Vec3 α) : Prop :=
  P v.x ∧ P v.y ∧ P v.z

/-- Component-wise order of vectors. -/
def Vec3.Le (v w : Vec3 ℚ) : Prop :=
  v.x ≤ w.x ∧ v.y ≤ w.y ∧ v.z ≤ w.z

instance (v w : Vec3 ℚ) : Decidable (Vec3.Le v w) := by
  unfold Vec3.Le; infer_instance

/-- Both corners of `inner` lie in the box `outer`. -/
def AABB.ContainedIn (inner outer : AABB ℚ) : Prop :=
  (Vec3.Le outer.min inner.min ∧ Vec3.Le inner.min outer.max) ∧
    (Vec3.Le outer.min inner.max ∧ Vec3.Le inner.max outer.max)

instance (a b : AABB ℚ) : Decidable (AABB.ContainedIn a b) := by
  unfold AABB.ContainedIn; infer_instance

/-- The origin-centred box `[-worldSize/2, +worldSize/2]`. -/
def centredBox (worldSize : Vec3 ℚ) : AABB ℚ :=
  ⟨worldSize.map (fun w => -(w / 2)), worldSize.map (fun w => w / 2)⟩

/-- A two-level tree over `100^3` voxels in blocks of `50^3`, used to
instantiate the statements below. -/
def exampleInfo : VolumeInformation :=
  ⟨⟨100, 100, 100⟩, ⟨50, 50, 50⟩, ⟨0, 0, 0⟩, ⟨1, 1, 1⟩, 2,
    fun level => ⟨2 ^ level, 2 ^ level, 2 ^ level⟩⟩

/-- A node of the finest level of `exampleInfo`. -/
def exampleNode : NodeId :=
  ⟨1, ⟨1, 0, 1⟩, 0⟩

/-- The bounding box `[0,100]^3`. -/
def exampleBox : AABB ℚ :=
  ⟨⟨0, 0, 0⟩, ⟨100, 100, 100⟩⟩

/-! ## URI parameters (`fivox/uriHandler.cpp`) -/

namespace URIHandler

end URIHandler

/-- The block resolution after `n` halvings. -/
def halved (r : Vec3 ℚ) (n : ℕ) : Vec3 ℚ :=
  r.map (· / 2 ^ n)

/-! ## Lemmas on the halving loop -/

theorem halved_zero (r : Vec3 ℚ) : halved r 0 = r := by
  cases r; simp [halved, Vec3.map]

theorem halved_succ (r : Vec3 ℚ) (n : ℕ) :
    halved (r.map (· / 2)) n = halved r (n + 1) := by
  cases r
  simp only [halved, Vec3.map, Vec3.mk.injEq]
  refine ⟨?_, ?_, ?_⟩ <;> (rw [pow_succ, div_div]; ring)

/-- A finished loop has halved `k` times, where `k` is the first count at which
the condition is false. -/
theorem halvingLoop_sound (B : ℕ) :
    ∀ (fuel : ℕ) (r : Vec3 ℚ) (d : ℕ) (r1 : Vec3 ℚ) (d1 : ℕ),
      halvingLoop B fuel r d = some (r1, d1) →
      ∃ k, k < fuel ∧ d1 = d + k ∧ r1 = halved r k ∧ ceilProduct (halved r k) ≤ (B : ℤ) ∧
        ∀ j, j < k → (B : ℤ) < ceilProduct (halved r j) := by
  intro fuel
  induction fuel with
  | zero => intro r d r1 d1 h; simp [halvingLoop] at h
  | succ fuel ih =>
    intro r d r1 d1 h
    unfold halvingLoop at h
    split at h
    · rename_i hgt
      obtain ⟨k, hk, hd, hr, hle, hmin⟩ := ih _ _ _ _ h
      refine ⟨k + 1, by omega, by omega, ?_, ?_, ?_⟩
      · rw [hr, halved_succ]
      · rw [← halved_succ]; exact hle
      · intro j hj
        cases j with
        | zero => rw [halved_zero]; exact hgt
        | succ j => rw [← halved_succ]; exact hmin j (by omega)
    · rename_i hle
      simp only [Option.some.injEq, Prod.mk.injEq] at h
      obtain ⟨rfl, rfl⟩ := h
      refine ⟨0, by omega, by omega, (halved_zero _).symm, ?_, ?_⟩
      · rw [halved_zero]; exact not_lt.mp hle
      · intro j hj; omega

/-- With more fuel than the first count at which the condition is false, the
loop finishes there. -/
theorem halvingLoop_complete (B : ℕ) :
    ∀ (k fuel : ℕ) (r : Vec3 ℚ) (d : ℕ), k < fuel →
      ceilProduct (halved r k) ≤ (B : ℤ) →
      (∀ j, j < k → (B : ℤ) < ceilProduct (halved r j)) →
      halvingLoop B fuel r d = some (halved r k, d + k) := by
  intro k
  induction k with
  | zero =>
    intro fuel r d hf hle _
    obtain ⟨f, rfl⟩ : ∃ f, fuel = f + 1 := ⟨fuel - 1, by omega⟩
    rw [halved_zero] at hle
    simp [halvingLoop, halved_zero, not_lt.mpr hle]
  | succ k ih =>
    intro fuel r d hf hle hmin
    obtain ⟨f, rfl⟩ : ∃ f, fuel = f + 1 := ⟨fuel - 1, by omega⟩
    have h0 : (B : ℤ) < ceilProduct r := by
      have := hmin 0 (by omega); rwa [halved_zero] at this
    unfold halvingLoop
    rw [if_pos h0, ih f _ (d + 1) (by omega)]
    · rw [halved_succ]; congr 2; omega
    · rw [halved_succ]; exact hle
    · intro j hj; rw [halved_succ]; exact hmin (j + 1) (by omega)

/-- Ceiling of a quotient of an integer by a natural number, by integer division. -/
theorem ceil_intCast_div_natCast (a : ℤ) (b : ℕ) :
    ⌈(a : ℚ) / (b : ℚ)⌉ = -(-a / (b : ℤ)) := by
  rw [← Rat.floor_intCast_div_natCast, Int.cast_neg, neg_div, Int.floor_neg, neg_neg]

theorem ceil_ofNat_div_ofNat (a b : ℕ) [a.AtLeastTwo] [b.AtLeastTwo] :
    ⌈(no_index (OfNat.ofNat a) : ℚ) / (no_index (OfNat.ofNat b) : ℚ)⌉ =
      -(-(a : ℤ) / (b : ℤ)) := by
  have h := ceil_intCast_div_natCast (a : ℤ) b
  simpa using h

theorem ceil_one_div_ofNat (b : ℕ) [b.AtLeastTwo] :
    ⌈(1 : ℚ) / (no_index (OfNat.ofNat b) : ℚ)⌉ = 1 := by
  have hb : (2 : ℚ) ≤ (OfNat.ofNat b : ℚ) := by
    have h2 : ((2 : ℕ) : ℚ) ≤ ((b : ℕ) : ℚ) := by
      exact_mod_cast (Nat.AtLeastTwo.prop : 2 ≤ b)
    have e : ((b : ℕ) : ℚ) = (OfNat.ofNat b : ℚ) := Nat.cast_ofNat
    rw [← e]
    simpa using h2
  rw [Int.ceil_eq_iff]
  constructor
  · simp only [Int.cast_one, sub_self]; positivity
  · rw [Int.cast_one, div_le_one (by linarith)]; linarith

theorem toNat_ofNat_literal (n : ℕ) [n.AtLeastTwo] :
    Int.toNat (no_index (OfNat.ofNat n) : ℤ) = OfNat.ofNat n := by
  have h : (OfNat.ofNat n : ℤ) = ((n : ℕ) : ℤ) := (Nat.cast_ofNat).symm
  rw [h, Int.toNat_ofNat]
  rfl

/-- C10: for bounding-box dimension `(100,100,100)`, resolution `1`, kernel reach
`0` the planner, given fuel for at least two evaluations of the loop condition,
yields depth `0` and `blockDim = (100,100,100)` under a budget of `1000000` bytes,
and depth `1` and `blockDim = (50,50,50)` under `500000` bytes; in both cases
`totalTreeSize = (100,100,100)` and `borders = (0,0,0)`. -/
theorem plan_concrete_scenario (fuel : ℕ) :
    plan (fuel + 2) ⟨100, 100, 100⟩ 0 1 1000000 =
        some ⟨0, ⟨100, 100, 100⟩, ⟨100, 100, 100⟩, ⟨0, 0, 0⟩⟩ ∧
      plan (fuel + 2) ⟨100, 100, 100⟩ 0 1 500000 =
        some ⟨1, ⟨50, 50, 50⟩, ⟨100, 100, 100⟩, ⟨0, 0, 0⟩⟩ := by
  constructor <;>
    norm_num [plan, halvingLoop, fullResolution, Vec3.map, ceilProduct,
      ceil_ofNat_div_ofNat, ceil_one_div_ofNat, shiftLeftOne, blockDimOf, toUInt32,
      scaleUInt32, bordersOf, Vec3.zipWith, toNat_ofNat_literal]

theorem maxBricks_eq_max (b : Vec3 ℕ) : maxBricks b = max b.x (max b.y b.z) := by
  unfold maxBricks Vec3.find_max_index
  split_ifs <;> simp only [Vec3.get] <;> omega

/-- C4 (counterexample): in the scenario of a bounding box `[0,100]^3` with borders
`(0,0,0)`, one block of `100^3` voxels and a world size of `(1,1,1)`, the node at
the finest level with grid position `(0,0,0)` gets the minimum corner
`(-1/2,-1/2,-1/2)`, which differs from `boundingBox.min - borders/2 = (0,0,0)`. -/
theorem finest_origin_corner_differs :
    (internalNodeToLODNode
        ⟨⟨100, 100, 100⟩, ⟨100, 100, 100⟩, ⟨0, 0, 0⟩, ⟨1, 1, 1⟩, 1, fun _ => ⟨1, 1, 1⟩⟩
        ⟨0, ⟨0, 0, 0⟩, 0⟩).worldBox.min = ⟨-1 / 2, -1 / 2, -1 / 2⟩ ∧
      (internalNodeToLODNode
        ⟨⟨100, 100, 100⟩, ⟨100, 100, 100⟩, ⟨0, 0, 0⟩, ⟨1, 1, 1⟩, 1, fun _ => ⟨1, 1, 1⟩⟩
        ⟨0, ⟨0, 0, 0⟩, 0⟩).worldBox.min ≠
        Vec3.zipWith (fun m b => m - b / 2) (⟨0, 0, 0⟩ : Vec3 ℚ) ⟨0, 0, 0⟩ := by
  constructor <;>
    norm_num [internalNodeToLODNode, localBlockPos, boxCoord, toWorld, Vec3.map,
      Vec3.zipWith, maxBricks, Vec3.find_max_index, Vec3.get]

/-- C4 (amended): for a node with grid position `(0,0,0)` at any level with a
positive brick count, the minimum corner of the world box assigned by
`internalNodeToLODNode` is `-worldSize/2`, whatever the bounding box and the
borders; it is the origin computed by `sample` that equals
`boundingBox.min - borders/2` when the relative position of the node is
`(0,0,0)`. -/
theorem origin_node_corner (info : VolumeInformation) (level frame : ℕ)
    (bbox : AABB ℚ) (borders : Vec3 ℚ)
    (hm : 0 < maxBricks (info.bricksInRefLevel level)) :
    (internalNodeToLODNode info ⟨level, ⟨0, 0, 0⟩, frame⟩).worldBox.min =
        info.worldSize.map (fun w => -(w / 2)) ∧
      sampleOrigin bbox borders ⟨0, 0, 0⟩ =
        Vec3.zipWith (fun m b => m - b / 2) bbox.min borders := by
  have _ := hm
  constructor
  · simp only [internalNodeToLODNode, localBlockPos, boxCoord, toWorld, Vec3.map,
      Vec3.zipWith, Nat.cast_zero, Int.cast_zero, zero_div, zero_mul, zero_sub,
      Vec3.mk.injEq]
    refine ⟨?_, ?_, ?_⟩ <;> ring
  · simp [sampleOrigin, Vec3.zipWith]

theorem origin_node_corner_witness :
    (internalNodeToLODNode
        ⟨⟨100, 100, 100⟩, ⟨100, 100, 100⟩, ⟨0, 0, 0⟩, ⟨1, 1, 1⟩, 1, fun _ => ⟨1, 1, 1⟩⟩
        ⟨0, ⟨0, 0, 0⟩, 0⟩).worldBox.min = (⟨1, 1, 1⟩ : Vec3 ℚ).map (fun w => -(w / 2)) ∧
      sampleOrigin ⟨⟨0, 0, 0⟩, ⟨100, 100, 100⟩⟩ ⟨0, 0, 0⟩ ⟨0, 0, 0⟩ =
        Vec3.zipWith (fun m b => m - b / 2) (⟨0, 0, 0⟩ : Vec3 ℚ) ⟨0, 0, 0⟩ :=
  origin_node_corner
    ⟨⟨100, 100, 100⟩, ⟨100, 100, 100⟩, ⟨0, 0, 0⟩, ⟨1, 1, 1⟩, 1, fun _ => ⟨1, 1, 1⟩⟩ 0 0
    ⟨⟨0, 0, 0⟩, ⟨100, 100, 100⟩⟩ ⟨0, 0, 0⟩
    (by simp [maxBricks, Vec3.find_max_index, Vec3.get])

/-- On one axis: a grid position inside the brick range gives normalised
coordinates in `[0,1]`. -/
theorem norm_axis (p m : ℕ) (hp : p + 1 ≤ m) :
    (0 : ℚ) ≤ ((p : ℤ) : ℚ) / (m : ℚ) ∧ ((p : ℤ) : ℚ) / (m : ℚ) ≤ 1 ∧
      (0 : ℚ) ≤ (((p + 1 : ℕ) : ℤ) : ℚ) / (m : ℚ) ∧ (((p + 1 : ℕ) : ℤ) : ℚ) / (m : ℚ) ≤ 1 := by
  have hm : (0 : ℚ) < (m : ℚ) := by exact_mod_cast (by omega : 0 < m)
  have h1 : ((p : ℤ) : ℚ) ≤ (m : ℚ) := by exact_mod_cast (by omega : p ≤ m)
  have h2 : (((p + 1 : ℕ) : ℤ) : ℚ) ≤ (m : ℚ) := by exact_mod_cast hp
  have h3 : (0 : ℚ) ≤ ((p : ℤ) : ℚ) := by exact_mod_cast Nat.zero_le p
  have h4 : (0 : ℚ) ≤ (((p + 1 : ℕ) : ℤ) : ℚ) := by exact_mod_cast Nat.zero_le (p + 1)
  exact ⟨div_nonneg h3 hm.le, (div_le_one hm).mpr h1, div_nonneg h4 hm.le,
    (div_le_one hm).mpr h2⟩

/-- On one axis: a normalised coordinate in `[0,1]` is mapped between the two
faces `-w/2` and `w/2` of the world box. -/
theorem world_axis (t w : ℚ) (h0 : 0 ≤ t) (h1 : t ≤ 1) :
    |t * w - w * (1 / 2)| ≤ |w| / 2 ∧
      (0 ≤ w → -(w / 2) ≤ t * w - w * (1 / 2) ∧ t * w - w * (1 / 2) ≤ w / 2) := by
  have e : t * w - w * (1 / 2) = (t - 1 / 2) * w := by ring
  constructor
  · rw [e, abs_mul]
    have ht : |t - 1 / 2| ≤ 1 / 2 := abs_le.mpr ⟨by linarith, by linarith⟩
    calc |t - 1 / 2| * |w| ≤ 1 / 2 * |w| := mul_le_mul_of_nonneg_right ht (abs_nonneg w)
      _ = |w| / 2 := by ring
  · intro hw
    constructor <;> nlinarith

/-- C5: for a node with grid position `p` whose level has brick counts `b` with
`m = max(b.x, b.y, b.z) > 0`, `internalNodeToLODNode` yields the world box
`[(p/m)*worldSize - worldSize/2, ((p+1)/m)*worldSize - worldSize/2]`; when
`p_i <= m - 1` on every axis the normalised corners `p/m` and `(p+1)/m` lie in
`[0,1]`, every world coordinate `c` of the box satisfies `|c| <= |worldSize|/2`,
and for a non-negative world size the box is contained in
`[-worldSize/2, +worldSize/2]`. -/
theorem node_world_box (info : VolumeInformation) (node : NodeId)
    (hm : 0 < maxBricks (info.bricksInRefLevel node.level)) :
    maxBricks (info.bricksInRefLevel node.level) =
        max (info.bricksInRefLevel node.level).x
          (max (info.bricksInRefLevel node.level).y (info.bricksInRefLevel node.level).z) ∧
      (internalNodeToLODNode info node).worldBox =
        ⟨Vec3.zipWith (fun (p : ℕ) (w : ℚ) =>
            (p : ℚ) / (maxBricks (info.bricksInRefLevel node.level) : ℚ) * w - w / 2)
            node.position info.worldSize,
          Vec3.zipWith (fun (p : ℕ) (w : ℚ) =>
            ((p : ℚ) + 1) / (maxBricks (info.bricksInRefLevel node.level) : ℚ) * w - w / 2)
            node.position info.worldSize⟩ ∧
      (Vec3.All (fun p => p + 1 ≤ maxBricks (info.bricksInRefLevel node.level)) node.position →
        (Vec3.Le ⟨0, 0, 0⟩
            (boxCoord (localBlockPos node.position).min (info.bricksInRefLevel node.level)) ∧
          Vec3.Le (boxCoord (localBlockPos node.position).min (info.bricksInRefLevel node.level))
            ⟨1, 1, 1⟩ ∧
          Vec3.Le ⟨0, 0, 0⟩
            (boxCoord (localBlockPos node.position).max (info.bricksInRefLevel node.level)) ∧
          Vec3.Le (boxCoord (localBlockPos node.position).max (info.bricksInRefLevel node.level))
            ⟨1, 1, 1⟩) ∧
        (Vec3.Le ((internalNodeToLODNode info node).worldBox.min.map (fun c => |c|))
            (info.worldSize.map (fun w => |w| / 2)) ∧
          Vec3.Le ((internalNodeToLODNode info node).worldBox.max.map (fun c => |c|))
            (info.worldSize.map (fun w => |w| / 2))) ∧
        (Vec3.All (fun w => 0 ≤ w) info.worldSize →
          ((internalNodeToLODNode info node).worldBox).ContainedIn
            (centredBox info.worldSize))) := by
  have _ := hm
  refine ⟨maxBricks_eq_max _, ?_, ?_⟩
  · simp only [internalNodeToLODNode, localBlockPos, boxCoord, toWorld, Vec3.map,
      Vec3.zipWith, AABB.mk.injEq, Vec3.mk.injEq]
    push_cast
    refine ⟨⟨?_, ?_, ?_⟩, ?_, ?_, ?_⟩ <;> ring
  · rintro ⟨hx, hy, hz⟩
    obtain ⟨x1, x2, x3, x4⟩ := norm_axis _ _ hx
    obtain ⟨y1, y2, y3, y4⟩ := norm_axis _ _ hy
    obtain ⟨z1, z2, z3, z4⟩ := norm_axis _ _ hz
    have ax := world_axis _ info.worldSize.x x1 x2
    have bx := world_axis _ info.worldSize.x x3 x4
    have ay := world_axis _ info.worldSize.y y1 y2
    have by1 := world_axis _ info.worldSize.y y3 y4
    have az := world_axis _ info.worldSize.z z1 z2
    have bz := world_axis _ info.worldSize.z z3 z4
    refine ⟨⟨⟨x1, y1, z1⟩, ⟨x2, y2, z2⟩, ⟨x3, y3, z3⟩, ⟨x4, y4, z4⟩⟩,
      ⟨⟨ax.1, ay.1, az.1⟩, ⟨bx.1, by1.1, bz.1⟩⟩, ?_⟩
    rintro ⟨wx, wy, wz⟩
    have cx := ax.2 wx
    have dx := bx.2 wx
    have cy := ay.2 wy
    have dy := by1.2 wy
    have cz := az.2 wz
    have dz := bz.2 wz
    exact ⟨⟨⟨cx.1, cy.1, cz.1⟩, ⟨cx.2, cy.2, cz.2⟩⟩, ⟨⟨dx.1, dy.1, dz.1⟩, ⟨dx.2, dy.2, dz.2⟩⟩⟩

theorem node_world_box_witness :
    0 < maxBricks (exampleInfo.bricksInRefLevel exampleNode.level) ∧
      (internalNodeToLODNode exampleInfo exampleNode).worldBox =
        ⟨Vec3.zipWith (fun (p : ℕ) (w : ℚ) =>
            (p : ℚ) / (maxBricks (exampleInfo.bricksInRefLevel exampleNode.level) : ℚ) * w - w / 2)
            exampleNode.position exampleInfo.worldSize,
          Vec3.zipWith (fun (p : ℕ) (w : ℚ) =>
            ((p : ℚ) + 1) / (maxBricks (exampleInfo.bricksInRefLevel exampleNode.level) : ℚ) * w
              - w / 2)
            exampleNode.position exampleInfo.worldSize⟩ ∧
      ((internalNodeToLODNode exampleInfo exampleNode).worldBox).ContainedIn
        (centredBox exampleInfo.worldSize) :=
  have h : 0 < maxBricks (exampleInfo.bricksInRefLevel exampleNode.level) := by
    simp [maxBricks, Vec3.find_max_index, Vec3.get, exampleInfo, exampleNode]
  have hp : Vec3.All (fun p => p + 1 ≤ maxBricks (exampleInfo.bricksInRefLevel exampleNode.level))
      exampleNode.position := by
    simp [Vec3.All, maxBricks, Vec3.find_max_index, Vec3.get, exampleInfo, exampleNode]
  have hw : Vec3.All (fun w => (0 : ℚ) ≤ w) exampleInfo.worldSize := by
    simp [Vec3.All, exampleInfo]
  ⟨h, (node_world_box exampleInfo exampleNode h).2.1,
    ((node_world_box exampleInfo exampleNode h).2.2 hp).2.2 hw⟩

/-! ## The sampler geometry -/

theorem toInt32_of_small (l : ℤ) (h0 : 0 ≤ l) (h1 : l < 31) : toInt32 l = l := by
  unfold toInt32
  have : l % 2 ^ 32 = l := Int.emod_eq_of_lt h0 (by omega)
  rw [this, if_pos (by omega)]

theorem sampleSpacing_eq (bbox : AABB ℚ) (borders : Vec3 ℚ) (info : VolumeInformation)
    (refLevel : ℕ) (hlevel : refLevel + 1 ≤ info.depth)
    (hshift : info.depth - 1 - refLevel < 31) :
    sampleSpacing bbox borders info refLevel =
      some ⟨(baseSpacing bbox borders info.voxels).find_max * 2 ^ (info.depth - 1 - refLevel),
        (baseSpacing bbox borders info.voxels).find_max * 2 ^ (info.depth - 1 - refLevel),
        (baseSpacing bbox borders info.voxels).find_max * 2 ^ (info.depth - 1 - refLevel)⟩ := by
  have hl : ((info.depth : ℤ) - 1 - (refLevel : ℤ)) = ((info.depth - 1 - refLevel : ℕ) : ℤ) := by
    omega
  have hs : shiftLeftOne (levelFromBottom info.depth refLevel) =
      some (2 ^ (info.depth - 1 - refLevel)) := by
    unfold levelFromBottom
    rw [hl, toInt32_of_small _ (by omega) (by omega)]
    unfold shiftLeftOne
    rw [if_pos ⟨by omega, by omega⟩, Int.toNat_ofNat]
  unfold sampleSpacing
  rw [hs]
  simp

/-- C6: for a node with `refLevel <= depth - 1` whose shift `1 << (depth-1-refLevel)`
is representable in `int`, `sample` sets all three spacing components to
`max(baseSpacing.x, baseSpacing.y, baseSpacing.z) * 2^(depth-1-refLevel)` with
`baseSpacing = (boundingBox.dimension + borders) / voxels`; the spacing at level
`r` is twice the spacing at level `r+1`, and at the finest level it is
`max(baseSpacing)`. -/
theorem sample_spacing (bbox : AABB ℚ) (borders : Vec3 ℚ) (info : VolumeInformation)
    (refLevel : ℕ) (hlevel : refLevel + 1 ≤ info.depth)
    (hshift : info.depth - 1 - refLevel < 31) :
    baseSpacing bbox borders info.voxels =
        Vec3.zipWith (fun s (v : ℕ) => s / (v : ℚ))
          (Vec3.zipWith (· + ·) bbox.getDimension borders) info.voxels ∧
      (baseSpacing bbox borders info.voxels).find_max =
        max (max (baseSpacing bbox borders info.voxels).x
          (baseSpacing bbox borders info.voxels).y) (baseSpacing bbox borders info.voxels).z ∧
      sampleSpacing bbox borders info refLevel =
        some ⟨(baseSpacing bbox borders info.voxels).find_max * 2 ^ (info.depth - 1 - refLevel),
          (baseSpacing bbox borders info.voxels).find_max * 2 ^ (info.depth - 1 - refLevel),
          (baseSpacing bbox borders info.voxels).find_max * 2 ^ (info.depth - 1 - refLevel)⟩ ∧
      (refLevel + 2 ≤ info.depth →
        ∃ s, sampleSpacing bbox borders info (refLevel + 1) = some s ∧
          sampleSpacing bbox borders info refLevel = some (s.map (fun c => 2 * c))) ∧
      sampleSpacing bbox borders info (info.depth - 1) =
        some ⟨(baseSpacing bbox borders info.voxels).find_max,
          (baseSpacing bbox borders info.voxels).find_max,
          (baseSpacing bbox borders info.voxels).find_max⟩ := by
  refine ⟨rfl, rfl, sampleSpacing_eq bbox borders info refLevel hlevel hshift, ?_, ?_⟩
  · intro h2
    refine ⟨_, sampleSpacing_eq bbox borders info (refLevel + 1) (by omega) (by omega), ?_⟩
    rw [sampleSpacing_eq bbox borders info refLevel hlevel hshift]
    have e : info.depth - 1 - refLevel = (info.depth - 1 - (refLevel + 1)) + 1 := by omega
    simp only [Vec3.map, Option.some.injEq, Vec3.mk.injEq]
    rw [e, pow_succ]
    refine ⟨?_, ?_, ?_⟩ <;> ring
  · have h := sampleSpacing_eq bbox borders info (info.depth - 1) (by omega) (by omega)
    rw [h]
    have e : info.depth - 1 - (info.depth - 1) = 0 := by omega
    simp [e]

theorem sample_spacing_witness :
    sampleSpacing exampleBox ⟨0, 0, 0⟩ exampleInfo 0 = some ⟨2, 2, 2⟩ ∧
      sampleSpacing exampleBox ⟨0, 0, 0⟩ exampleInfo 1 = some ⟨1, 1, 1⟩ := by
  have h := sample_spacing exampleBox ⟨0, 0, 0⟩ exampleInfo 0
    (by simp [exampleInfo]) (by simp [exampleInfo])
  have hbase : (baseSpacing exampleBox ⟨0, 0, 0⟩ exampleInfo.voxels).find_max = 1 := by
    norm_num [baseSpacing, exampleBox, exampleInfo, AABB.getDimension, Vec3.zipWith,
      Vec3.find_max]
  have hd : exampleInfo.depth = 2 := rfl
  refine ⟨?_, ?_⟩
  · rw [h.2.2.1, hbase, hd]; norm_num
  · have hf := h.2.2.2.2
    rw [hbase, hd] at hf
    exact hf

/-! ## The host boundary -/

/-- C7: `getData` returns the memory unit produced by `sample` when `sample`
succeeds, returns the empty memory unit (and logs) when `sample` throws a
`std::exception` or anything else, and in no case lets an exception leave. -/
theorem getData_isolates_failures
    (sample : LODNode → VolumeInformation → Except Thrown MemoryUnit)
    (info : VolumeInformation) (node : LODNode) :
    (∀ unit, sample node info = Except.ok unit →
        getData sample info node = Except.ok ⟨some unit, []⟩) ∧
      (∀ e, sample node info = Except.error e →
        ∃ log, log ≠ [] ∧ getData sample info node = Except.ok ⟨none, log⟩) ∧
      (∀ e, getData sample info node ≠ Except.error e) := by
  refine ⟨?_, ?_, ?_⟩
  · intro unit h
    simp [getData, h]
  · intro e h
    cases e with
    | stdException what =>
      exact ⟨["sample failed: " ++ what], by simp, by simp [getData, h]⟩
    | other => exact ⟨["sample failed"], by simp, by simp [getData, h]⟩
  · intro e
    unfold getData
    split <;> simp

theorem getData_isolates_failures_witness :
    getData (fun _ _ => Except.ok ⟨[7]⟩) exampleInfo ⟨exampleNode, ⟨50, 50, 50⟩, exampleBox⟩ =
        Except.ok ⟨some ⟨[7]⟩, []⟩ ∧
      ∃ log, log ≠ [] ∧
        getData (fun _ _ => Except.error Thrown.other) exampleInfo
          ⟨exampleNode, ⟨50, 50, 50⟩, exampleBox⟩ = Except.ok ⟨none, log⟩ :=
  ⟨(getData_isolates_failures (fun _ _ => Except.ok ⟨[7]⟩) exampleInfo
      ⟨exampleNode, ⟨50, 50, 50⟩, exampleBox⟩).1 ⟨[7]⟩ rfl,
   (getData_isolates_failures (fun _ _ => Except.error Thrown.other) exampleInfo
      ⟨exampleNode, ⟨50, 50, 50⟩, exampleBox⟩).2.1 Thrown.other rfl⟩

/-! ## Order of the frame load and the lock -/

/-- C9 (the code at the failing input): in a call of `sample` the frame load
executes while the lock is not held, the lock being acquired only afterwards;
and two calls for frames `1` and `2` can interleave so that the call for
frame `1` extracts a buffer computed after frame `2` was loaded. -/
theorem load_precedes_lock :
    (∀ frame, heldDuring false (sampleActions frame) =
        [(Action.load frame, false), (Action.lockAcquire, false), (Action.configure, true),
          (Action.update, true), (Action.extract, true), (Action.lockRelease, true)]) ∧
      runSchedule
          [false, true, false, false, false, false, false, true, true, true, true, true]
          (sampleActions 1) (sampleActions 2) Shared.init =
        some ⟨none, some 2, some 2, [(0, some 2), (1, some 2)]⟩ := by
  constructor
  · intro frame; rfl
  · decide

/-! ## URI parameters -/

/-- A ceiling of a value in `[0,1]` is `0` or `1`. -/
theorem ceil_unit (a : ℚ) (h0 : 0 ≤ a) (h1 : a ≤ 1) : 0 ≤ ⌈a⌉ ∧ ⌈a⌉ ≤ 1 :=
  ⟨Int.ceil_nonneg h0, Int.ceil_le.mpr (by simpa using h1)⟩

/-- Once the largest component halved `n` times is at most `1`, the product of
the ceilings is at most `1`. -/
theorem ceilProduct_le_one (full : Vec3 ℚ) (n : ℕ)
    (h0 : 0 ≤ full.x ∧ 0 ≤ full.y ∧ 0 ≤ full.z) (hn : full.find_max / 2 ^ n ≤ 1) :
    ceilProduct (halved full n) ≤ 1 := by
  have hpow : (0 : ℚ) < 2 ^ n := by positivity
  have hmax : full.find_max ≤ 2 ^ n := by
    have := (div_le_one hpow).mp hn
    exact this
  have hx : full.x ≤ full.find_max := le_trans (le_max_left _ _) (le_max_left _ _)
  have hy : full.y ≤ full.find_max := le_trans (le_max_right _ _) (le_max_left _ _)
  have hz : full.z ≤ full.find_max := le_max_right _ _
  obtain ⟨ax, bx⟩ := ceil_unit (full.x / 2 ^ n) (div_nonneg h0.1 hpow.le)
    ((div_le_one hpow).mpr (le_trans hx hmax))
  obtain ⟨ay, by1⟩ := ceil_unit (full.y / 2 ^ n) (div_nonneg h0.2.1 hpow.le)
    ((div_le_one hpow).mpr (le_trans hy hmax))
  obtain ⟨az, bz⟩ := ceil_unit (full.z / 2 ^ n) (div_nonneg h0.2.2 hpow.le)
    ((div_le_one hpow).mpr (le_trans hz hmax))
  simp only [ceilProduct, halved, Vec3.map]
  have hxy : ⌈full.x / 2 ^ n⌉ * ⌈full.y / 2 ^ n⌉ ≤ 1 := by nlinarith
  have hxy0 : 0 ≤ ⌈full.x / 2 ^ n⌉ * ⌈full.y / 2 ^ n⌉ := mul_nonneg ax ay
  nlinarith

/-- C14: for every `fullResolution` with non-negative components and every
`maxBlockByteSize >= 1` the halving loop finishes, with one result whatever the
fuel; some `n` has `max(fullResolution.x, fullResolution.y, fullResolution.z) / 2^n <= 1`,
and the resulting depth is at most every such `n`, hence at most the least. -/
theorem loop_terminates_under_positive_budget (full : Vec3 ℚ) (B : ℕ)
    (h0 : 0 ≤ full.x ∧ 0 ≤ full.y ∧ 0 ≤ full.z) (hB : 1 ≤ B) :
    ∃ r depth,
      halvingLoop B (depth + 1) full 0 = some (r, depth) ∧
        (∀ fuel r1 d1, halvingLoop B fuel full 0 = some (r1, d1) → r1 = r ∧ d1 = depth) ∧
        (∃ n, full.find_max / 2 ^ n ≤ 1) ∧
        ∀ n, full.find_max / 2 ^ n ≤ 1 → depth ≤ n := by
  have hBz : (1 : ℤ) ≤ (B : ℤ) := by exact_mod_cast hB
  obtain ⟨n0, hn0⟩ : ∃ n : ℕ, full.find_max < 2 ^ n :=
    pow_unbounded_of_one_lt full.find_max (by norm_num)
  have hn0le : full.find_max / 2 ^ n0 ≤ 1 :=
    (div_le_one (by positivity)).mpr hn0.le
  have hex : ∃ n, ceilProduct (halved full n) ≤ (B : ℤ) :=
    ⟨n0, le_trans (ceilProduct_le_one full n0 h0 hn0le) hBz⟩
  classical
  have hrun := halvingLoop_complete B (Nat.find hex) (Nat.find hex + 1) full 0 (by omega)
    (Nat.find_spec hex) (fun j hj => not_le.mp (Nat.find_min hex hj))
  rw [Nat.zero_add] at hrun
  refine ⟨halved full (Nat.find hex), Nat.find hex, hrun, ?_, ⟨n0, hn0le⟩, ?_⟩
  · intro fuel r1 d1 h1
    obtain ⟨k, -, hd, hr, hle, hmin⟩ := halvingLoop_sound B fuel full 0 r1 d1 h1
    have hk : k = Nat.find hex := by
      apply le_antisymm
      · by_contra hlt
        have := hmin (Nat.find hex) (not_le.mp hlt)
        exact absurd (Nat.find_spec hex) (not_le.mpr this)
      · exact Nat.find_min' hex hle
    subst hk
    exact ⟨hr, by omega⟩
  · intro n hn
    exact Nat.find_min' hex (le_trans (ceilProduct_le_one full n h0 hn) hBz)

theorem loop_terminates_under_positive_budget_witness :
    ∃ r depth,
      halvingLoop 500000 (depth + 1) (⟨100, 100, 100⟩ : Vec3 ℚ) 0 = some (r, depth) ∧
        (∀ fuel r1 d1, halvingLoop 500000 fuel (⟨100, 100, 100⟩ : Vec3 ℚ) 0 = some (r1, d1) →
          r1 = r ∧ d1 = depth) ∧
        (∃ n, (⟨100, 100, 100⟩ : Vec3 ℚ).find_max / 2 ^ n ≤ 1) ∧
        ∀ n, (⟨100, 100, 100⟩ : Vec3 ℚ).find_max / 2 ^ n ≤ 1 → depth ≤ n :=
  loop_terminates_under_positive_budget ⟨100, 100, 100⟩ 500000
    ⟨by norm_num, by norm_num, by norm_num⟩ (by norm_num)

end Fivox
